import Mathlib

/-!
Shallow embedding of the `fkvs` flash key-value store
(src/src/lib.rs and src/src/mock.rs) and verification of its
specification claims.

Machine integers are modelled as `Nat` with explicit bit masks / `% 2^w`
where overflow matters.  Fallible operations return `Except`.  Bodies that
are `unimplemented!()` in the source are either modelled as an explicit
`panicked`-style outcome, or — where a claim is decided by missing code —
modelled from the spec; such definitions carry a doc comment starting
with `Modelled from the spec:`.
-/

namespace Fkvs

/-- Bit masks of the `PageFlags` bitflags (u16) from src/src/lib.rs:
INACTIVE = 1 << 0, VALID = 1 << 1. -/
def PageFlags.INACTIVE : Nat := 1

/-- VALID flag bit of `PageFlags` (1 << 1). -/
def PageFlags.VALID : Nat := 2

/-- The bitflags `contains` operation: all bits of `bit` are set in `flags`. -/
def flagsContains (flags bit : Nat) : Bool := flags &&& bit == bit

/-- `PageHeader` from src/src/lib.rs.  `version : u8`, `kind : u8` (raw byte;
`PageKind::Standard = 0x00` is the only recognized kind), `index : u32`
(wrapping monotonic count), `flags : u16`. -/
structure PageHeader where
  version : Nat
  kind : Nat
  index : Nat
  flags : Nat
deriving DecidableEq, Repr

/-- One iteration of the page-scan loop body of `Kvs::init`
(src/src/lib.rs lines 136-151): skip the page if its INACTIVE flag is set,
skip it if its VALID flag is clear, otherwise track the running
`current_index` via the raw `u32` comparison `*c < h.index`. -/
def scanStep (cur : Option Nat) (h : PageHeader) : Option Nat :=
  if flagsContains h.flags PageFlags.INACTIVE then cur
  else if !flagsContains h.flags PageFlags.VALID then cur
  else
    match cur with
    | some c => if c < h.index then some h.index else some c
    | none => some h.index

/-- The scan loop of `Kvs::init` over the remaining page numbers, reading the
header of page `i` at address `i * pageSize` (the loop's
`get_page_header(i * F::PAGE_SIZE)`).  Returns the final `current_index`
together with the list of addresses at which a page header was read, in
order.  `gph` abstracts `get_page_header` (whose body is `unimplemented!()`
in the source): it maps an address to the parsed header stored there. -/
def scanGo (gph : Nat → PageHeader) (pageSize : Nat) :
    Option Nat → List Nat → Option Nat × List Nat
  | cur, [] => (cur, [])
  | cur, i :: rest =>
    let addr := i * pageSize
    let h := gph addr
    let r := scanGo gph pageSize (scanStep cur h) rest
    (r.1, addr :: r.2)

/-- The recovery scan of `Kvs::init` (src/src/lib.rs lines 131-152):
`for i in 0..num_pages`, starting from `current_index = None`. -/
def initScan (gph : Nat → PageHeader) (numPages pageSize : Nat) :
    Option Nat × List Nat :=
  scanGo gph pageSize none (List.range numPages)

/-- A page header qualifies as an active-page candidate in the scan when its
INACTIVE flag is clear and its VALID flag is set. -/
def qualifies (h : PageHeader) : Bool :=
  !flagsContains h.flags PageFlags.INACTIVE &&
    flagsContains h.flags PageFlags.VALID

/-- Spec-side characterisation: the highest page index among qualifying
headers (numeric maximum). -/
def highestQualifyingIndex (hs : List PageHeader) : Option Nat :=
  ((hs.filter qualifies).map PageHeader.index).max?

/-- Fold view of the scan result, forgetting the address trace. -/
def scanFold (cur : Option Nat) (hs : List PageHeader) : Option Nat :=
  hs.foldl scanStep cur

theorem scanStep_eq (cur : Option Nat) (h : PageHeader) :
    scanStep cur h =
      if qualifies h then
        match cur with
        | some c => some (max c h.index)
        | none => some h.index
      else cur := by
  unfold scanStep qualifies
  cases hi : flagsContains h.flags PageFlags.INACTIVE with
  | true => simp
  | false =>
    cases hv : flagsContains h.flags PageFlags.VALID with
    | false => simp
    | true =>
      simp only [Bool.not_false, Bool.not_true, Bool.true_and,
        Bool.false_eq_true, if_false, if_true]
      cases cur with
      | none => simp
      | some c =>
        rcases Nat.lt_or_ge c h.index with hlt | hge
        · simp [hlt, Nat.max_eq_right (Nat.le_of_lt hlt)]
        · simp [Nat.not_lt.mpr hge, Nat.max_eq_left hge]

theorem scanGo_fst (gph : Nat → PageHeader) (pageSize : Nat)
    (cur : Option Nat) (l : List Nat) :
    (scanGo gph pageSize cur l).1 =
      scanFold cur (l.map (fun i => gph (i * pageSize))) := by
  induction l generalizing cur with
  | nil => rfl
  | cons i rest ih => simp [scanGo, scanFold, List.foldl_cons, ih, scanFold]

theorem scanGo_snd (gph : Nat → PageHeader) (pageSize : Nat)
    (cur : Option Nat) (l : List Nat) :
    (scanGo gph pageSize cur l).2 = l.map (fun i => i * pageSize) := by
  induction l generalizing cur with
  | nil => rfl
  | cons i rest ih => simp [scanGo, ih]

theorem scanFold_some (hs : List PageHeader) (c : Nat) :
    scanFold (some c) hs =
      some (((hs.filter qualifies).map PageHeader.index).foldl max c) := by
  induction hs generalizing c with
  | nil => rfl
  | cons h rest ih =>
    rw [scanFold, List.foldl_cons, scanStep_eq, List.filter_cons]
    cases hq : qualifies h with
    | false =>
      simp only [Bool.false_eq_true, if_false]
      exact ih c
    | true =>
      simp only [if_true, List.map_cons, List.foldl_cons]
      exact ih (max c h.index)

theorem foldl_max_eq_max? (c : Nat) (l : List Nat) :
    l.foldl max c = l.max?.elim c (max c) := by
  induction l generalizing c with
  | nil => rfl
  | cons a l ih =>
    rw [List.foldl_cons, ih (max c a), List.max?_cons]
    cases hm : l.max? with
    | none => simp
    | some m => simp [Nat.max_assoc]

theorem scanFold_none (hs : List PageHeader) :
    scanFold none hs = highestQualifyingIndex hs := by
  induction hs with
  | nil => rfl
  | cons h rest ih =>
    rw [scanFold, List.foldl_cons, scanStep_eq, highestQualifyingIndex,
      List.filter_cons]
    cases hq : qualifies h with
    | false =>
      simp only [Bool.false_eq_true, if_false]
      exact ih.trans (by rw [highestQualifyingIndex])
    | true =>
      simp only [if_true, List.map_cons]
      rw [show (List.foldl scanStep (some h.index) rest : Option Nat) =
        scanFold (some h.index) rest from rfl, scanFold_some, List.max?_cons,
        foldl_max_eq_max?]

/-- The wraparound-safe "newer" relation described by the spec at 32-bit
width: treat the difference of the two 32-bit indices as a signed 32-bit
value; a positive difference means the left operand is newer. -/
def wrapNewer32 (a b : Nat) : Bool :=
  let d := (a % 2 ^ 32 + 2 ^ 32 - b % 2 ^ 32) % 2 ^ 32
  0 < d && d < 2 ^ 31

/-- Flash header contents straddling the wraparound boundary: page 0 is
Active with index 0xFFFFFFFF, page 1 is Active with index 0 (its
chronological successor).  Flags 0xFFFE is the erased default with the
INACTIVE bit cleared, i.e. Active. -/
def wrapHeaders : Nat → PageHeader := fun addr =>
  if addr = 0 then ⟨1, 0, 0xFFFFFFFF, 0xFFFE⟩ else ⟨1, 0, 0, 0xFFFE⟩

/-- C1: the claim says the recovery scan compares page indices by treating
the difference of the two 32-bit indices as a signed 32-bit value and so
selects the chronologically newer page across the wraparound boundary.  The
source loop (src/src/lib.rs lines 147-151) instead uses the raw `u32`
comparison `*c < h.index`: with Active pages of index 0xFFFFFFFF and 0 the
scan keeps 0xFFFFFFFF, although index 0 is the chronologically newer page
under the spec's signed-difference rule. -/
theorem C1_scan_wraparound_regresses :
    (initScan wrapHeaders 2 2048).1 = some 0xFFFFFFFF ∧
      wrapNewer32 0 0xFFFFFFFF = true := by decide

/-- C2: the recovery scan of `Kvs::init` reads the header of each of the
`num_pages` configured pages exactly once (at addresses `i * page_size`, in
order and pairwise distinct for a positive page size), skips every page
whose INACTIVE flag is set, skips every page whose VALID flag is clear, and
selects as the active-page index the highest page index among the remaining
pages. -/
theorem C2_scan_visits_skips_selects (gph : Nat → PageHeader)
    (numPages pageSize : Nat) (hps : 0 < pageSize) :
    (initScan gph numPages pageSize).2 =
        (List.range numPages).map (fun i => i * pageSize) ∧
      (initScan gph numPages pageSize).2.Nodup ∧
      (initScan gph numPages pageSize).1 =
        highestQualifyingIndex
          ((List.range numPages).map (fun i => gph (i * pageSize))) := by
  refine ⟨scanGo_snd gph pageSize none (List.range numPages), ?_, ?_⟩
  · rw [initScan, scanGo_snd]
    exact List.Nodup.map
      (fun a b hab => Nat.eq_of_mul_eq_mul_right hps hab)
      (List.nodup_range numPages)
  · rw [initScan, scanGo_fst, scanFold_none]

/-- Closed instance of C2 at a concrete header oracle and configuration. -/
theorem C2_scan_visits_skips_selects_witness :
    (initScan (fun _ => PageHeader.mk 1 0 5 0xFFFE) 3 2048).2 =
        (List.range 3).map (fun i => i * 2048) ∧
      (initScan (fun _ => PageHeader.mk 1 0 5 0xFFFE) 3 2048).2.Nodup ∧
      (initScan (fun _ => PageHeader.mk 1 0 5 0xFFFE) 3 2048).1 =
        highestQualifyingIndex ((List.range 3).map (fun i =>
          (fun _ => PageHeader.mk 1 0 5 0xFFFE) (i * 2048))) :=
  C2_scan_visits_skips_selects (fun _ => PageHeader.mk 1 0 5 0xFFFE) 3 2048
    (by decide)

/-- Addresses erased by `Kvs::erase_all` (src/src/lib.rs lines 203-205):
the loop body is `self.flash.erase_page(i * F::PAGE_SIZE)?` for
`i in 0..num_pages` — the configured `start_addr` does not appear. -/
def eraseAllAddrs (numPages pageSize : Nat) : List Nat :=
  (List.range numPages).map (fun i => i * pageSize)

/-- C3 counterexample: with start_addr = 4096, page_size = 2048 and
num_pages = 2, both the recovery scan and erase_all touch page 1 at address
2048, not at start_addr + 1 * page_size = 6144 as the claim states. -/
theorem C3_counterexample :
    eraseAllAddrs 2 2048 = [0, 2048] ∧
      (initScan (fun _ => PageHeader.mk 1 0 0 0xFFFF) 2 2048).2 = [0, 2048] ∧
      ¬ (2048 = 4096 + 1 * 2048) := by decide

/-- C3 amended: the address used for page i by both the recovery scan and
erase_all is `i * page_size`; the configured start address does not enter
either address computation. -/
theorem C3_amended_page_addresses (gph : Nat → PageHeader)
    (numPages pageSize i : Nat) (hi : i < numPages) :
    (eraseAllAddrs numPages pageSize)[i]? = some (i * pageSize) ∧
      (initScan gph numPages pageSize).2[i]? = some (i * pageSize) := by
  constructor
  · rw [eraseAllAddrs, List.getElem?_map, List.getElem?_range hi]
    rfl
  · rw [initScan, scanGo_snd, List.getElem?_map, List.getElem?_range hi]
    rfl

/-- Closed instance of the amended C3 at page 1 of a two-page store. -/
theorem C3_amended_page_addresses_witness :
    (eraseAllAddrs 2 2048)[1]? = some (1 * 2048) ∧
      (initScan (fun _ => PageHeader.mk 1 0 0 0xFFFF) 2 2048).2[1]? =
        some (1 * 2048) :=
  C3_amended_page_addresses (fun _ => PageHeader.mk 1 0 0 0xFFFF) 2 2048 1
    (by decide)

/-- An entry record from src/src/lib.rs (`EntryHeader` plus payload):
`index : u16` (wrapping monotonic count), `flags : u16` (same INACTIVE and
VALID bits as pages), key bytes and value bytes.  The explicit byte lists
carry the header's `key_len` and `val_len`. -/
structure Entry where
  index : Nat
  flags : Nat
  key : List Nat
  value : List Nat
deriving DecidableEq, Repr

/-- Modelled from the spec: the source's `get_page_header`,
`set_page_header` and entry accessors are all `unimplemented!()`, and the
spec fixes no byte-level encoding for headers, so flash is modelled at page
granularity — a page holds its parsed header and its entry stream. -/
structure Page where
  header : PageHeader
  entries : List Entry
deriving DecidableEq, Repr

/-- A freshly erased page reads back as all bits set: version 0xFF,
kind 0xFF, index 0xFFFFFFFF, flags 0xFFFF (INACTIVE and VALID both set),
and no entries. -/
def erasedPage : Page := ⟨⟨0xFF, 0xFF, 0xFFFFFFFF, 0xFFFF⟩, []⟩

/-- Page-granular flash contents: page number → page. -/
def Mem : Type := Nat → Page

/-- Erase of the page containing byte address `addr` (the flash contract
erases whole pages; the store passes page-aligned addresses). -/
def memErasePage (m : Mem) (pageSize addr : Nat) : Mem :=
  fun p => if p = addr / pageSize then erasedPage else m p

/-- `Kvs::erase_all` (src/src/lib.rs lines 202-208) over the page-granular
model: `self.flash.erase_page(i * F::PAGE_SIZE)?` for `i in 0..num_pages`. -/
def memEraseAll (m : Mem) (numPages pageSize : Nat) : Mem :=
  (List.range numPages).foldl
    (fun acc i => memErasePage acc pageSize (i * pageSize)) m

/-- Write of a page header at a byte address, page-granular model. -/
def memSetPageHeader (m : Mem) (pageSize addr : Nat) (h : PageHeader) : Mem :=
  fun p =>
    if p = addr / pageSize then { m (addr / pageSize) with header := h }
    else m p

/-- Header of a fresh Active page with index 0: version 1, kind Standard,
erased default flags with the INACTIVE bit cleared (0xFFFE). -/
def freshActiveHeader : PageHeader := ⟨1, 0, 0, 0xFFFE⟩

/-- Modelled from the spec: `Kvs::format` is `unimplemented!()` in
src/src/lib.rs (lines 171-173).  Spec section 4.6: erase every configured
page (the src `erase_all` loop) and reinitialize page 0 as a fresh Active
page with index 0 and an empty entry stream. -/
def memFormat (m : Mem) (numPages pageSize : Nat) : Mem :=
  memSetPageHeader (memEraseAll m numPages pageSize) pageSize 0
    freshActiveHeader

/-- Page-granular `get_page_header`: the parsed header of the page holding
byte address `addr`. -/
def memGetPageHeader (m : Mem) (pageSize addr : Nat) : PageHeader :=
  (m (addr / pageSize)).header

/-- The `Kvs::init` recovery scan over page-granular flash contents. -/
def memInitScan (m : Mem) (numPages pageSize : Nat) : Option Nat :=
  (initScan (memGetPageHeader m pageSize) numPages pageSize).1

/-- Outcome of `Kvs::init`: when a qualifying page is found the source
records its index and then hits `unimplemented!()`; when none is found it
re-formats the store. -/
inductive InitResult
  | foundActive (idx : Nat)
  | formatted (m : Mem)

/-- `Kvs::init` (src/src/lib.rs lines 129-168) over the page-granular
model. -/
def memInit (m : Mem) (numPages pageSize : Nat) : InitResult :=
  match memInitScan m numPages pageSize with
  | some i => .foundActive i
  | none => .formatted (memFormat m numPages pageSize)

theorem memEraseAll_apply (m : Mem) (numPages pageSize p : Nat)
    (hps : 0 < pageSize) :
    memEraseAll m numPages pageSize p =
      if p < numPages then erasedPage else m p := by
  induction numPages with
  | zero => simp [memEraseAll]
  | succ n ih =>
    rw [memEraseAll, List.range_succ, List.foldl_append, List.foldl_cons,
      List.foldl_nil]
    rw [show List.foldl
      (fun acc i => memErasePage acc pageSize (i * pageSize)) m
      (List.range n) = memEraseAll m n pageSize from rfl]
    simp only [memErasePage, Nat.mul_div_cancel _ hps]
    by_cases hp : p = n
    · subst hp
      simp [Nat.lt_succ_self]
    · simp only [hp, if_false]
      rw [ih]
      by_cases hlt : p < n
      · simp [hlt, Nat.lt_succ_of_lt hlt]
      · have hns : ¬ p < n + 1 := by omega
        simp [hlt, hns]

theorem memFormat_apply_zero (m : Mem) (numPages pageSize : Nat)
    (hn : 0 < numPages) (hps : 0 < pageSize) :
    memFormat m numPages pageSize 0 = ⟨freshActiveHeader, []⟩ := by
  rw [memFormat]
  simp only [memSetPageHeader, Nat.zero_div, if_pos rfl]
  rw [memEraseAll_apply m numPages pageSize 0 hps, if_pos hn]
  rfl

theorem memFormat_apply_pos (m : Mem) (numPages pageSize p : Nat)
    (hps : 0 < pageSize) (hp : 0 < p) (hlt : p < numPages) :
    memFormat m numPages pageSize p = erasedPage := by
  rw [memFormat]
  simp only [memSetPageHeader, Nat.zero_div]
  rw [if_neg (by omega), memEraseAll_apply m numPages pageSize p hps,
    if_pos hlt]

theorem memInitScan_none (m : Mem) (numPages pageSize : Nat)
    (hps : 0 < pageSize)
    (hnone : ∀ i, i < numPages → qualifies (m i).header = false) :
    memInitScan m numPages pageSize = none := by
  rw [memInitScan, initScan, scanGo_fst, scanFold_none,
    highestQualifyingIndex]
  have hfil : ((List.range numPages).map
      (fun i => memGetPageHeader m pageSize (i * pageSize))).filter
        qualifies = [] := by
    rw [List.filter_eq_nil_iff]
    intro h hh
    rcases List.mem_map.mp hh with ⟨i, hi, rfl⟩
    rw [memGetPageHeader, Nat.mul_div_cancel _ hps]
    simp [hnone i (List.mem_range.mp hi)]
  rw [hfil]
  rfl

/-- C4: if the recovery scan finds no qualifying page, `Kvs::init` takes
the re-format branch: every configured page is erased and page 0 is
initialized to the Active state with page index 0 and an empty entry
stream.  (`format` and the header writers are `unimplemented!()` in the
source and are modelled from spec section 4.6; erasure itself is the src
`erase_all` loop.) -/
theorem C4_no_candidate_formats (m : Mem) (numPages pageSize : Nat)
    (hn : 0 < numPages) (hps : 0 < pageSize)
    (hnone : ∀ i, i < numPages → qualifies (m i).header = false) :
    memInit m numPages pageSize =
        .formatted (memFormat m numPages pageSize) ∧
      memFormat m numPages pageSize 0 = ⟨freshActiveHeader, []⟩ ∧
      ∀ p, 0 < p → p < numPages →
        memFormat m numPages pageSize p = erasedPage := by
  refine ⟨?_, memFormat_apply_zero m numPages pageSize hn hps,
    fun p hp hlt => memFormat_apply_pos m numPages pageSize p hps hp hlt⟩
  rw [memInit, memInitScan_none m numPages pageSize hps hnone]

/-- Closed instance of C4 on two freshly erased pages. -/
theorem C4_no_candidate_formats_witness :
    memInit (fun _ => erasedPage) 2 2048 =
        .formatted (memFormat (fun _ => erasedPage) 2 2048) ∧
      memFormat (fun _ => erasedPage) 2 2048 0 = ⟨freshActiveHeader, []⟩ ∧
      memFormat (fun _ => erasedPage) 2 2048 1 = erasedPage := by
  have h := C4_no_candidate_formats (fun _ => erasedPage) 2 2048
    (by decide) (by decide)
    (fun i _ => by exact (by decide : qualifies erasedPage.header = false))
  exact ⟨h.1, h.2.1, h.2.2 1 (by decide) (by decide)⟩

/-- Modelled from the spec: `Kvs::get_page_header` is `unimplemented!()`
in src/src/lib.rs (lines 210-212).  Spec sections 4.1 and 7: a version
field other than 1 marks the page unrecognized/corrupt, an unrecognized
kind (anything but Standard = 0x00) likewise, and corrupt pages are
skipped during scanning rather than treated as fatal. -/
inductive PageRead
  | corrupt
  | hdr (h : PageHeader)

/-- Classification of a parsed header, modelled from the spec (see
`PageRead`). -/
def classifyHeader (h : PageHeader) : PageRead :=
  if h.version ≠ 1 then .corrupt
  else if h.kind ≠ 0 then .corrupt
  else .hdr h

/-- The `Kvs::init` scan loop composed with the spec-modelled corrupt
classification: a corrupt page is skipped, every other page goes through
the source loop body `scanStep`. -/
def scanClassified (cur : Option Nat) : List PageHeader → Option Nat
  | [] => cur
  | h :: rest =>
    match classifyHeader h with
    | .corrupt => scanClassified cur rest
    | .hdr g => scanClassified (scanStep cur g) rest

theorem classifyHeader_corrupt (h : PageHeader)
    (hc : h.version ≠ 1 ∨ h.kind ≠ 0) : classifyHeader h = .corrupt := by
  rw [classifyHeader]
  rcases hc with hv | hk
  · rw [if_pos hv]
  · by_cases hv : h.version ≠ 1
    · rw [if_pos hv]
    · rw [if_neg hv, if_pos hk]

/-- C5: a page whose header version is not 1 or whose kind byte is
unrecognized is treated as corrupt by the scan: it is skipped — removing it
from the flash contents leaves the scan's result unchanged, wherever it
sits — and it is not fatal (the scan still produces a result computed from
the remaining pages). -/
theorem C5_corrupt_page_skipped (l1 l2 : List PageHeader)
    (cur : Option Nat) (h : PageHeader)
    (hc : h.version ≠ 1 ∨ h.kind ≠ 0) :
    scanClassified cur (l1 ++ h :: l2) = scanClassified cur (l1 ++ l2) := by
  induction l1 generalizing cur with
  | nil =>
    rw [List.nil_append, List.nil_append, scanClassified,
      classifyHeader_corrupt h hc]
  | cons a l1 ih =>
    rw [List.cons_append, List.cons_append, scanClassified, scanClassified]
    cases classifyHeader a with
    | corrupt => exact ih cur
    | hdr g => exact ih (scanStep cur g)

/-- Closed instance of C5: a version-2 page between two good pages neither
aborts the scan nor wins it. -/
theorem C5_corrupt_page_skipped_witness :
    scanClassified none
        ([PageHeader.mk 1 0 5 0xFFFE] ++
          PageHeader.mk 2 0 99 0xFFFE :: [PageHeader.mk 1 0 7 0xFFFE]) =
      scanClassified none
        ([PageHeader.mk 1 0 5 0xFFFE] ++ [PageHeader.mk 1 0 7 0xFFFE]) :=
  C5_corrupt_page_skipped [PageHeader.mk 1 0 5 0xFFFE]
    [PageHeader.mk 1 0 7 0xFFFE] none (PageHeader.mk 2 0 99 0xFFFE)
    (Or.inl (by decide))

/-- The `Error` enum of src/src/lib.rs (lines 38-42): the sole variant
wraps an underlying flash error; there is no NotFound, BufferTooSmall or
NoSpace variant. -/
inductive Error (E : Type) where
  | flash : E → Error E
deriving DecidableEq

/-- Possible outcomes of a store call, with the source's `unimplemented!()`
modelled as the distinguished `panicked` outcome. -/
inductive ReadResult (E : Type) where
  | ok (count : Nat)
  | err (e : Error E)
  | panicked
deriving DecidableEq

/-- `Kvs::read` (src/src/lib.rs lines 176-184): the body is a stack of TODO
comments ending in `unimplemented!()`, so every call panics regardless of
key or buffer. -/
def kvsRead (E : Type) (_key : List Nat) (_bufLen : Nat) : ReadResult E :=
  ReadResult.panicked

/-- C6: the claim lists NotFound, BufferTooSmall and FlashError as the only
outcomes of `read`.  In the source, `Error<E>` has the single variant
`Flash(E)` — NotFound and BufferTooSmall are not representable — and
`read` is `unimplemented!()`: at the key "missing" with an 8-byte buffer it
panics instead of producing any of the claimed outcomes. -/
theorem C6_read_outcomes_impossible :
    (∀ e : Error Unit, e = Error.flash ()) ∧
      kvsRead Unit [109, 105, 115, 115, 105, 110, 103] 8 =
        ReadResult.panicked := by
  constructor
  · intro e
    cases e with
    | flash u => rfl
  · rfl

namespace MockKvs

/-- `MockKvs::PAGE_SIZE` from src/src/mock.rs. -/
def PAGE_SIZE : Nat := 2048

/-- `MockKvs::write` (src/src/mock.rs lines 35-39):
`(&mut d[addr..addr+data.len()]).copy_from_slice(data)` — a plain
overwrite of the addressed byte range with the given bytes. -/
def write (mem : List Nat) (addr : Nat) (data : List Nat) : List Nat :=
  mem.take addr ++ data ++ mem.drop (addr + data.length)

/-- `MockKvs::erase_page` (src/src/mock.rs lines 41-47):
`for i in 0..Self::PAGE_SIZE { d[addr + i] = 0xFF }`. -/
def erase_page (mem : List Nat) (addr : Nat) : List Nat :=
  (List.range PAGE_SIZE).foldl (fun d i => d.set (addr + i) 0xFF) mem

end MockKvs

theorem getElem?_set_general (l : List Nat) (i j a : Nat) :
    (l.set i a)[j]? = if i = j ∧ i < l.length then some a else l[j]? := by
  rw [List.getElem?_set]
  by_cases hij : i = j
  · subst hij
    by_cases hl : i < l.length
    · simp [hl]
    · simp [hl, List.getElem?_eq_none (Nat.not_lt.mp hl)]
  · simp [hij]

theorem length_mock_write (mem : List Nat) (addr : Nat) (data : List Nat)
    (hw : addr + data.length ≤ mem.length) :
    (MockKvs.write mem addr data).length = mem.length := by
  simp only [MockKvs.write, List.length_append, List.length_take,
    List.length_drop]
  omega

theorem getElem?_mock_write (mem : List Nat) (addr : Nat) (data : List Nat)
    (hw : addr + data.length ≤ mem.length) (i : Nat) :
    (MockKvs.write mem addr data)[i]? =
      if addr ≤ i ∧ i < addr + data.length then data[i - addr]?
      else mem[i]? := by
  have hta : (mem.take addr).length = addr := by
    rw [List.length_take]
    omega
  rw [MockKvs.write, List.append_assoc, List.getElem?_append, hta]
  by_cases h1 : i < addr
  · rw [if_pos h1, List.getElem?_take, if_pos h1, if_neg (by omega)]
  · rw [if_neg h1, List.getElem?_append]
    by_cases h2 : i - addr < data.length
    · rw [if_pos h2, if_pos (by omega)]
    · rw [if_neg h2, List.getElem?_drop, if_neg (by omega)]
      have hix : addr + data.length + (i - addr - data.length) = i := by
        omega
      rw [hix]

theorem length_foldl_set (mem : List Nat) (addr n : Nat) :
    ((List.range n).foldl (fun d j => d.set (addr + j) 0xFF) mem).length =
      mem.length := by
  induction n with
  | zero => rfl
  | succ k ih =>
    rw [List.range_succ, List.foldl_append, List.foldl_cons, List.foldl_nil,
      List.length_set]
    exact ih

theorem getElem?_foldl_set (mem : List Nat) (addr n i : Nat) :
    ((List.range n).foldl (fun d j => d.set (addr + j) 0xFF) mem)[i]? =
      if addr ≤ i ∧ i < addr + n ∧ i < mem.length then some 0xFF
      else mem[i]? := by
  induction n with
  | zero =>
    rw [if_neg (by omega)]
    rfl
  | succ k ih =>
    rw [List.range_succ, List.foldl_append, List.foldl_cons, List.foldl_nil,
      getElem?_set_general, length_foldl_set, ih]
    by_cases h1 : addr + k = i ∧ addr + k < mem.length
    · rw [if_pos h1, if_pos (by omega)]
    · rw [if_neg h1]
      by_cases h2 : addr ≤ i ∧ i < addr + k ∧ i < mem.length
      · rw [if_pos h2, if_pos (by omega)]
      · rw [if_neg h2, if_neg (by omega)]

/-- C10: the mock flash write replaces the bytes at
[addr, addr + data.len()) with exactly the given bytes — plain overwrite
semantics, including setting bits from 0 back to 1, with every byte outside
the range untouched — and erase_page sets every byte of the 2048-byte page
at addr to 0xFF, leaving bytes outside the page untouched. -/
theorem C10_mock_overwrite_and_erase (mem : List Nat) (addr : Nat)
    (data : List Nat) (mem2 : List Nat) (addr2 : Nat)
    (hw : addr + data.length ≤ mem.length)
    (he : addr2 + MockKvs.PAGE_SIZE ≤ mem2.length) :
    (MockKvs.write mem addr data).length = mem.length ∧
      (∀ i, (MockKvs.write mem addr data)[i]? =
        if addr ≤ i ∧ i < addr + data.length then data[i - addr]?
        else mem[i]?) ∧
      (MockKvs.erase_page mem2 addr2).length = mem2.length ∧
      (∀ i, addr2 ≤ i → i < addr2 + MockKvs.PAGE_SIZE →
        (MockKvs.erase_page mem2 addr2)[i]? = some 0xFF) ∧
      (∀ i, i < addr2 ∨ addr2 + MockKvs.PAGE_SIZE ≤ i →
        (MockKvs.erase_page mem2 addr2)[i]? = mem2[i]?) := by
  refine ⟨length_mock_write mem addr data hw,
    getElem?_mock_write mem addr data hw, ?_, ?_, ?_⟩
  · exact length_foldl_set mem2 addr2 MockKvs.PAGE_SIZE
  · intro i hlo hhi
    rw [MockKvs.erase_page, getElem?_foldl_set, if_pos ⟨hlo, hhi, by omega⟩]
  · intro i hout
    rw [MockKvs.erase_page, getElem?_foldl_set, if_neg (by omega)]

/-- Closed instance of C10: overwriting byte 0x00 with 0xFF (bits set from
0 back to 1) and erasing a page of zeros. -/
theorem C10_mock_overwrite_and_erase_witness :
    (MockKvs.write [0, 171] 0 [255]).length = 2 ∧
      (MockKvs.write [0, 171] 0 [255])[0]? = some 255 ∧
      (MockKvs.erase_page (List.replicate 2048 0) 0)[5]? = some 0xFF := by
  have h := C10_mock_overwrite_and_erase [0, 171] 0 [255]
    (List.replicate 2048 0) 0 (by decide)
    (by rw [List.length_replicate]
        show (0 : Nat) + 2048 ≤ 2048
        omega)
  refine ⟨h.1, ?_, h.2.2.2.1 5 (by decide) (by decide)⟩
  rw [h.2.1 0]
  decide

/-- Modelled from the spec: the flash-touching helpers of `Kvs`
(`get_page_header`, `set_page_header` and the entry reader) are all
`unimplemented!()` in src, so `Kvs::new`/`Kvs::init` is modelled over an
oracle giving each flash operation's outcome.  A raw flash error `e : E`
is wrapped as `Error::Flash(e)` by the `From` impl (src/src/lib.rs lines
44-48) at each `?` operator, unchanged and with no retry. -/
structure FlashOps (E : Type) where
  getPageHeader : Nat → Except E PageHeader
  erasePage : Nat → Except E Unit
  setPageHeader : Nat → PageHeader → Except E Unit
  readEntries : Nat → Except E (List Entry)

/-- Loop body of the scan tracking, besides the source's `current_index`,
the address of the winning page (the spec's "keep the one ... as the
active page"; the source records only the index before hitting
`unimplemented!()`). -/
def scanStepAddr (cur : Option (Nat × Nat)) (addr : Nat) (h : PageHeader) :
    Option (Nat × Nat) :=
  if flagsContains h.flags PageFlags.INACTIVE then cur
  else if !flagsContains h.flags PageFlags.VALID then cur
  else
    match cur with
    | some c => if c.2 < h.index then some (addr, h.index) else some c
    | none => some (addr, h.index)

/-- The `Kvs::init` scan over the oracle model: reads the header of page
`i` at address `i * PAGE_SIZE`; the first flash error aborts the loop via
`?`, wrapped as `Error::Flash`. -/
def scanE {E : Type} (ops : FlashOps E) (pageSize : Nat) :
    Option (Nat × Nat) → List Nat → Except (Error E) (Option (Nat × Nat))
  | cur, [] => .ok cur
  | cur, i :: rest =>
    match ops.getPageHeader (i * pageSize) with
    | .error e => .error (.flash e)
    | .ok h => scanE ops pageSize (scanStepAddr cur (i * pageSize) h) rest

/-- Size in bytes of an entry on flash: 8-byte header (u16 index, u16
flags, u16 key_len, u16 val_len) plus key and value payload. -/
def entrySize (e : Entry) : Nat := 8 + e.key.length + e.value.length

/-- Size in bytes of a page header: u8 version, u8 kind, u32 index,
u16 flags. -/
def PAGE_HEADER_SIZE : Nat := 8

/-- Modelled from the spec: on a qualifying page the scanner walks the
entries from offset 0, accumulating the write cursor (end of the last
structurally valid entry). -/
def walkCursor (es : List Entry) : Nat :=
  es.foldl (fun c e => c + entrySize e) PAGE_HEADER_SIZE

/-- `Kvs::erase_all` over the oracle model. -/
def eraseAllE {E : Type} (ops : FlashOps E) (pageSize : Nat) :
    List Nat → Except (Error E) Unit
  | [] => .ok ()
  | i :: rest =>
    match ops.erasePage (i * pageSize) with
    | .error e => .error (.flash e)
    | .ok _ => eraseAllE ops pageSize rest

/-- Modelled from the spec: `Kvs::format` = the src `erase_all` loop, then
the fresh Active header of page 0 (spec section 4.6). -/
def formatE {E : Type} (ops : FlashOps E) (numPages pageSize : Nat) :
    Except (Error E) Unit :=
  match eraseAllE ops pageSize (List.range numPages) with
  | .error e => .error e
  | .ok _ =>
    match ops.setPageHeader 0 freshActiveHeader with
    | .error e => .error (.flash e)
    | .ok _ => .ok ()

/-- `Kvs::init` over the oracle model: scan; with a winner, walk its
entries to the write cursor (spec-modelled); with none, format.  Returns
the write cursor on success. -/
def initE {E : Type} (ops : FlashOps E) (numPages pageSize : Nat) :
    Except (Error E) Nat :=
  match scanE ops pageSize none (List.range numPages) with
  | .error e => .error e
  | .ok (some c) =>
    match ops.readEntries c.1 with
    | .error e => .error (.flash e)
    | .ok es => .ok (walkCursor es)
  | .ok none =>
    match formatE ops numPages pageSize with
    | .error e => .error e
    | .ok _ => .ok PAGE_HEADER_SIZE

/-- `Kvs::new` (src/src/lib.rs lines 121-127): construct, run `init`,
propagate its error. -/
def kvsNew {E : Type} (ops : FlashOps E) (numPages pageSize : Nat) :
    Except (Error E) Unit :=
  match initE ops numPages pageSize with
  | .error e => .error e
  | .ok _ => .ok ()

theorem scanE_error_at {E : Type} (ops : FlashOps E) (pageSize : Nat)
    (l1 l2 : List Nat) (j : Nat) (e : E) (cur : Option (Nat × Nat))
    (hok : ∀ a ∈ l1, ∃ h, ops.getPageHeader (a * pageSize) = .ok h)
    (herr : ops.getPageHeader (j * pageSize) = .error e) :
    scanE ops pageSize cur (l1 ++ j :: l2) = .error (.flash e) := by
  induction l1 generalizing cur with
  | nil =>
    rw [List.nil_append, scanE, herr]
  | cons a l1 ih =>
    rcases hok a (List.mem_cons_self a l1) with ⟨h, hh⟩
    rw [List.cons_append, scanE, hh]
    exact ih _ (fun b hb => hok b (List.mem_cons_of_mem a hb))

theorem scanE_all_ok {E : Type} (ops : FlashOps E) (pageSize : Nat)
    (l : List Nat) (cur : Option (Nat × Nat))
    (hok : ∀ a, ∃ h, ops.getPageHeader a = .ok h) :
    ∃ r, scanE ops pageSize cur l = .ok r := by
  induction l generalizing cur with
  | nil => exact ⟨cur, rfl⟩
  | cons i rest ih =>
    rcases hok (i * pageSize) with ⟨h, hh⟩
    rw [scanE, hh]
    exact ih _

theorem eraseAllE_all_ok {E : Type} (ops : FlashOps E) (pageSize : Nat)
    (l : List Nat) (hok : ∀ a, ops.erasePage a = .ok ()) :
    eraseAllE ops pageSize l = .ok () := by
  induction l with
  | nil => rfl
  | cons i rest ih =>
    rw [eraseAllE, hok (i * pageSize)]
    exact ih

/-- C7: (a) if the flash read of page j during the construction-time scan
fails with raw error e while every earlier page read succeeded, `Kvs::new`
returns `Error::Flash(e)` — e wrapped unchanged, no retry; (b) if every
flash operation succeeds, construction returns a store. -/
theorem C7_new_error_propagation {E : Type} (ops : FlashOps E)
    (numPages pageSize : Nat) :
    (∀ j e, j < numPages →
      (∀ i, i < j → ∃ h, ops.getPageHeader (i * pageSize) = .ok h) →
      ops.getPageHeader (j * pageSize) = .error e →
      kvsNew ops numPages pageSize = .error (.flash e)) ∧
    ((∀ a, ∃ h, ops.getPageHeader a = .ok h) →
      (∀ a, ops.erasePage a = .ok ()) →
      (∀ a h, ops.setPageHeader a h = .ok ()) →
      (∀ a, ∃ es, ops.readEntries a = .ok es) →
      kvsNew ops numPages pageSize = .ok ()) := by
  constructor
  · intro j e hj hpre herr
    obtain ⟨k, hk⟩ : ∃ k, numPages = (j + 1) + k :=
      ⟨numPages - j - 1, by omega⟩
    subst hk
    have hsplit : List.range ((j + 1) + k) =
        List.range j ++ j :: ((List.range k).map (fun x => (j + 1) + x)) := by
      rw [List.range_add, List.range_succ, List.append_assoc,
        List.singleton_append]
    have hscan := scanE_error_at ops pageSize (List.range j)
      ((List.range k).map (fun x => (j + 1) + x)) j e none
      (fun a ha => hpre a (List.mem_range.mp ha)) herr
    simp only [kvsNew, initE, hsplit, hscan]
  · intro hgph hep hsph hre
    rcases scanE_all_ok ops pageSize (List.range numPages) none hgph
      with ⟨r, hr⟩
    cases r with
    | none =>
      simp only [kvsNew, initE, hr, formatE,
        eraseAllE_all_ok ops pageSize (List.range numPages) hep,
        hsph 0 freshActiveHeader]
    | some c =>
      rcases hre c.1 with ⟨es, hes⟩
      simp only [kvsNew, initE, hr, hes]

/-- Oracle with a flash read failure at the second page header. -/
def opsFailPage1 : FlashOps Unit where
  getPageHeader := fun a =>
    if a = 0 then .ok ⟨1, 0, 0, 0xFFFF⟩ else .error ()
  erasePage := fun _ => .ok ()
  setPageHeader := fun _ _ => .ok ()
  readEntries := fun _ => .ok []

/-- Oracle on which every flash operation succeeds (erased flash). -/
def opsAllOk : FlashOps Unit where
  getPageHeader := fun _ => .ok ⟨0xFF, 0xFF, 0xFFFFFFFF, 0xFFFF⟩
  erasePage := fun _ => .ok ()
  setPageHeader := fun _ _ => .ok ()
  readEntries := fun _ => .ok []

/-- Closed instance of C7: a failing header read at page 1 surfaces as
`Error::Flash`, and fully successful flash yields a store. -/
theorem C7_new_error_propagation_witness :
    kvsNew opsFailPage1 2 2048 = .error (.flash ()) ∧
      kvsNew opsAllOk 2 2048 = .ok () := by
  constructor
  · refine (C7_new_error_propagation opsFailPage1 2 2048).1 1 () (by omega)
      (fun i hi => ?_) rfl
    have hi0 : i = 0 := by omega
    subst hi0
    exact ⟨⟨1, 0, 0, 0xFFFF⟩, rfl⟩
  · exact (C7_new_error_propagation opsAllOk 2 2048).2
      (fun a => ⟨⟨0xFF, 0xFF, 0xFFFFFFFF, 0xFFFF⟩, rfl⟩)
      (fun a => rfl) (fun a h => rfl) (fun a => ⟨[], rfl⟩)

/-- INACTIVE bit of the `EntryFlags` bitflags (1 << 0), src/src/lib.rs. -/
def EntryFlags.INACTIVE : Nat := 1

/-- VALID bit of the `EntryFlags` bitflags (1 << 1). -/
def EntryFlags.VALID : Nat := 2

/-- An entry is in the Active state: INACTIVE cleared, VALID set. -/
def entryIsActive (e : Entry) : Bool :=
  !flagsContains e.flags EntryFlags.INACTIVE &&
    flagsContains e.flags EntryFlags.VALID

/-- Clearing an entry's VALID bit — the Active → Expired transition
(mask keeps every u16 bit except bit 1). -/
def clearValid (e : Entry) : Entry := { e with flags := e.flags &&& 0xFFFD }

/-- Modelled from the spec: the wraparound comparison rule at 16-bit width
for entry indices — treat the difference as a signed 16-bit value, positive
means the left operand is newer. -/
def wrapNewer16 (a b : Nat) : Bool :=
  let d := (a % 2 ^ 16 + 2 ^ 16 - b % 2 ^ 16) % 2 ^ 16
  0 < d && d < 2 ^ 15

/-- Modelled from the spec: `Kvs::read` and `Kvs::write` are
`unimplemented!()` in src (their bodies are TODO lists), so the store
engine of spec sections 4.4/4.5 is modelled over the active page: its
entries in append order plus the page's 32-bit index.  The write cursor is
derived state: `walkCursor` of the entries. -/
structure Store where
  entries : List Entry
  pageIndex : Nat
deriving DecidableEq, Repr

/-- The write cursor (byte offset in the active page). -/
def pageUsed (s : Store) : Nat := walkCursor s.entries

/-- One entry of the read scan (spec section 4.4): an entry replaces the
tracked candidate when it matches the key bytes, is Active, and its
(wraparound) entry index beats the candidate's. -/
def considerEntry (key : List Nat) (i : Nat) (e : Entry) :
    Option (Nat × Entry) → Option (Nat × Entry)
  | none => if e.key = key ∧ entryIsActive e then some (i, e) else none
  | some b =>
    if e.key = key ∧ entryIsActive e then
      (if wrapNewer16 e.index b.2.index then some (i, e) else some b)
    else some b

/-- Modelled from the spec (section 4.4): scan the entries from the start,
tracking position and entry of the current match — matching key bytes,
Active state, highest (wraparound) entry index seen so far. -/
def findCurrentPosAux (key : List Nat) :
    List Entry → Nat → Option (Nat × Entry) → Option (Nat × Entry)
  | [], _, best => best
  | e :: rest, i, best =>
    findCurrentPosAux key rest (i + 1) (considerEntry key i e best)

/-- Position and entry of the current (latest Active) record for a key. -/
def findCurrentPos (key : List Nat) (es : List Entry) :
    Option (Nat × Entry) :=
  findCurrentPosAux key es 0 none

/-- The current (latest Active) entry for a key. -/
def findCurrent (key : List Nat) (es : List Entry) : Option Entry :=
  (findCurrentPos key es).map (fun pe => pe.2)

/-- Outcomes of read per spec section 4.4. -/
inductive ReadOutcome where
  | ok (value : List Nat)
  | notFound
  | bufferTooSmall (required : Nat)
deriving DecidableEq, Repr

/-- Modelled from the spec (section 4.4): read scans for the current entry;
NotFound when none exists; BufferTooSmall reporting the required length
when the buffer is shorter than the stored value; otherwise the value
bytes (the returned byte count is their length). -/
def readS (s : Store) (key : List Nat) (bufLen : Nat) : ReadOutcome :=
  match findCurrent key s.entries with
  | none => .notFound
  | some e =>
    if bufLen < e.value.length then .bufferTooSmall e.value.length
    else .ok e.value

/-- Highest (wraparound) entry index observed in the page. -/
def highestEntryIndex (es : List Entry) : Option Nat :=
  es.foldl (fun c e =>
    match c with
    | none => some e.index
    | some x => if wrapNewer16 e.index x then some e.index else some x) none

/-- Index for the next appended entry: highest observed index + 1
(mod 2^16), or 0 on a fresh page (spec section 4.4, write step 4). -/
def nextEntryIndex (es : List Entry) : Nat :=
  match highestEntryIndex es with
  | none => 0
  | some h => (h + 1) % 2 ^ 16

/-- Modelled from the spec (write steps 4-5): append the new Active entry
at the cursor, then clear the previous current entry's VALID bit. -/
def appendAndExpire (s : Store) (key value : List Nat) : Store :=
  match findCurrentPos key s.entries with
  | some pe =>
    ⟨(s.entries ++
        [(⟨nextEntryIndex s.entries, 0xFFFE, key, value⟩ : Entry)]).set
      pe.1 (clearValid pe.2), s.pageIndex⟩
  | none =>
    ⟨s.entries ++ [(⟨nextEntryIndex s.entries, 0xFFFE, key, value⟩ : Entry)],
      s.pageIndex⟩

/-- Modelled from the spec (section 4.5): compaction keeps, for every key
with an Active entry in the old page, one fresh Active entry holding its
current value (latest version only), with fresh sequential indices. -/
def compact (es : List Entry) : List Entry :=
  ((((es.map Entry.key).dedup).filterMap
    (fun k => (findCurrent k es).map (fun e => (k, e.value)))).enum).map
    (fun x => ⟨x.1 % 2 ^ 16, 0xFFFE, x.2.1, x.2.2⟩)

/-- Modelled from the spec (section 4.5): rollover migrates the live data
to a fresh page whose index is the old page's plus 1 (wraparound). -/
def rollover (s : Store) : Store :=
  ⟨compact s.entries, (s.pageIndex + 1) % 2 ^ 32⟩

/-- Outcomes of write per spec section 4.4. -/
inductive WriteOutcome where
  | ok (s : Store)
  | noSpace
deriving DecidableEq, Repr

/-- Modelled from the spec (section 4.4, write): find the current entry for
the key; if its value equals the new value, succeed with no mutation
(endurance optimization); otherwise append header + key + value (8 bytes
of entry header plus the payload), after a rollover when the active page
lacks room; NoSpace when even a compacted fresh page cannot take it. -/
def writeS (pageSize : Nat) (s : Store) (key value : List Nat) :
    WriteOutcome :=
  match findCurrent key s.entries with
  | some e =>
    if e.value = value then .ok s
    else if pageUsed s + (8 + key.length + value.length) ≤ pageSize then
      .ok (appendAndExpire s key value)
    else if pageUsed (rollover s) + (8 + key.length + value.length) ≤
        pageSize then
      .ok (appendAndExpire (rollover s) key value)
    else .noSpace
  | none =>
    if pageUsed s + (8 + key.length + value.length) ≤ pageSize then
      .ok (appendAndExpire s key value)
    else if pageUsed (rollover s) + (8 + key.length + value.length) ≤
        pageSize then
      .ok (appendAndExpire (rollover s) key value)
    else .noSpace

/-- The spec invariant (section 3) specialised to one key: at most one
entry for the key is in the Active state. -/
def uniqueActive (key : List Nat) (es : List Entry) : Prop :=
  ∀ (i j : Nat) (a b : Entry), es[i]? = some a → es[j]? = some b →
    a.key = key → entryIsActive a → b.key = key → entryIsActive b → i = j

theorem entryIsActive_fresh (i : Nat) (k v : List Nat) :
    entryIsActive ⟨i, 0xFFFE, k, v⟩ = true := by
  show (!flagsContains 0xFFFE EntryFlags.INACTIVE &&
    flagsContains 0xFFFE EntryFlags.VALID) = true
  rfl

theorem entryIsActive_clearValid (e : Entry) :
    entryIsActive (clearValid e) = false := by
  have h2 : flagsContains (e.flags &&& 0xFFFD) EntryFlags.VALID = false := by
    rw [flagsContains, EntryFlags.VALID, Nat.land_assoc]
    rw [show ((0xFFFD : Nat) &&& 2) = 0 from rfl, Nat.and_zero]
    rfl
  rw [entryIsActive, show (clearValid e).flags = e.flags &&& 0xFFFD from rfl,
    h2, Bool.and_false]

theorem clearValid_key (e : Entry) : (clearValid e).key = e.key := rfl

/-- Soundness predicate for the tracked candidate of the entry scan: the
recorded position holds the recorded entry, which matches the key and is
Active. -/
def goodBest (key : List Nat) (es : List Entry) :
    Option (Nat × Entry) → Prop
  | none => True
  | some qb => es[qb.1]? = some qb.2 ∧ qb.2.key = key ∧ entryIsActive qb.2

theorem considerEntry_goodBest (key : List Nat) (es : List Entry) (i : Nat)
    (e : Entry) (best : Option (Nat × Entry))
    (ha : es[i]? = some e) (hb : goodBest key es best) :
    goodBest key es (considerEntry key i e best) := by
  cases best with
  | none =>
    rw [considerEntry]
    by_cases hm : e.key = key ∧ entryIsActive e
    · rw [if_pos hm]
      exact ⟨ha, hm.1, hm.2⟩
    · rw [if_neg hm]
      trivial
  | some qb =>
    rw [considerEntry]
    by_cases hm : e.key = key ∧ entryIsActive e
    · rw [if_pos hm]
      by_cases hw : wrapNewer16 e.index qb.2.index
      · rw [if_pos hw]
        exact ⟨ha, hm.1, hm.2⟩
      · rw [if_neg hw]
        exact hb
    · rw [if_neg hm]
      exact hb

theorem considerEntry_ne_none (key : List Nat) (i : Nat) (e : Entry)
    (qb : Nat × Entry) : considerEntry key i e (some qb) ≠ none := by
  rw [considerEntry]
  by_cases hm : e.key = key ∧ entryIsActive e
  · rw [if_pos hm]
    by_cases hw : wrapNewer16 e.index qb.2.index
    · rw [if_pos hw]
      exact Option.some_ne_none _
    · rw [if_neg hw]
      exact Option.some_ne_none _
  · rw [if_neg hm]
    exact Option.some_ne_none _

theorem considerEntry_no_match (key : List Nat) (i : Nat) (e : Entry)
    (best : Option (Nat × Entry))
    (hm : ¬(e.key = key ∧ entryIsActive e)) :
    considerEntry key i e best = best := by
  cases best with
  | none => rw [considerEntry, if_neg hm]
  | some qb => rw [considerEntry, if_neg hm]

theorem findAux_goodBest (key : List Nat) (es : List Entry)
    (l : List Entry) (i : Nat) (best : Option (Nat × Entry))
    (hsub : ∀ j, j < l.length → es[i + j]? = l[j]?)
    (hb : goodBest key es best) :
    goodBest key es (findCurrentPosAux key l i best) := by
  induction l generalizing i best with
  | nil => exact hb
  | cons a l ih =>
    rw [findCurrentPosAux]
    refine ih (i + 1) _ ?_ ?_
    · intro j hj
      have h := hsub (j + 1) (by simpa using Nat.succ_lt_succ hj)
      rw [show i + (j + 1) = i + 1 + j from by omega] at h
      simpa using h
    · refine considerEntry_goodBest key es i a best ?_ hb
      have h := hsub 0 (by simp)
      simpa using h

theorem findCurrentPos_spec (key : List Nat) (es : List Entry)
    (p : Nat) (e : Entry) (h : findCurrentPos key es = some (p, e)) :
    es[p]? = some e ∧ e.key = key ∧ entryIsActive e := by
  have hg := findAux_goodBest key es es 0 none
    (fun j hj => by simp) trivial
  rw [findCurrentPos] at h
  rw [h] at hg
  exact hg

theorem findAux_some_ne_none (key : List Nat) (l : List Entry) (i : Nat)
    (qb : Nat × Entry) :
    findCurrentPosAux key l i (some qb) ≠ none := by
  induction l generalizing i qb with
  | nil => exact Option.some_ne_none _
  | cons a l ih =>
    rw [findCurrentPosAux]
    cases hc : considerEntry key i a (some qb) with
    | none => exact absurd hc (considerEntry_ne_none key i a qb)
    | some qb2 => exact ih _ _

theorem findAux_none (key : List Nat) (l : List Entry) (i : Nat)
    (best : Option (Nat × Entry))
    (h : findCurrentPosAux key l i best = none) :
    ∀ a ∈ l, ¬(a.key = key ∧ entryIsActive a) := by
  induction l generalizing i best with
  | nil => simp
  | cons b l ih =>
    intro a ha
    rw [findCurrentPosAux] at h
    by_cases hm : b.key = key ∧ entryIsActive b
    · exfalso
      cases best with
      | none =>
        rw [show considerEntry key i b none = some (i, b) from by
          rw [considerEntry, if_pos hm]] at h
        exact findAux_some_ne_none key l (i + 1) (i, b) h
      | some qb =>
        cases hc : considerEntry key i b (some qb) with
        | none => exact considerEntry_ne_none key i b qb hc
        | some qb2 =>
          rw [hc] at h
          exact findAux_some_ne_none key l (i + 1) qb2 h
    · rcases List.mem_cons.mp ha with rfl | ha2
      · exact hm
      · rw [considerEntry_no_match key i b best hm] at h
        exact ih (i + 1) best h a ha2

theorem findCurrentPos_none (key : List Nat) (es : List Entry)
    (h : findCurrentPos key es = none) :
    ∀ a ∈ es, ¬(a.key = key ∧ entryIsActive a) :=
  findAux_none key es 0 none h

theorem findAux_no_match (key : List Nat) (l : List Entry) (i : Nat)
    (best : Option (Nat × Entry))
    (h : ∀ a ∈ l, ¬(a.key = key ∧ entryIsActive a)) :
    findCurrentPosAux key l i best = best := by
  induction l generalizing i best with
  | nil => rfl
  | cons a l ih =>
    rw [findCurrentPosAux,
      considerEntry_no_match key i a best (h a (List.mem_cons_self a l))]
    exact ih _ _ (fun b hb => h b (List.mem_cons_of_mem a hb))

theorem findAux_append (key : List Nat) (l1 l2 : List Entry) (i : Nat)
    (best : Option (Nat × Entry))
    (h : ∀ a ∈ l1, ¬(a.key = key ∧ entryIsActive a)) :
    findCurrentPosAux key (l1 ++ l2) i best =
      findCurrentPosAux key l2 (i + l1.length) best := by
  induction l1 generalizing i best with
  | nil => simp
  | cons a l1 ih =>
    rw [List.cons_append, findCurrentPosAux,
      considerEntry_no_match key i a best (h a (List.mem_cons_self a l1)),
      ih (i + 1) best (fun b hb => h b (List.mem_cons_of_mem a hb))]
    congr 1
    simp
    omega

theorem findCurrentPos_unique (key : List Nat) (l1 l2 : List Entry)
    (e : Entry) (h1 : ∀ a ∈ l1, ¬(a.key = key ∧ entryIsActive a))
    (he : e.key = key ∧ entryIsActive e)
    (h2 : ∀ a ∈ l2, ¬(a.key = key ∧ entryIsActive a)) :
    findCurrentPos key (l1 ++ e :: l2) = some (l1.length, e) := by
  rw [findCurrentPos, findAux_append key l1 (e :: l2) 0 none h1,
    findCurrentPosAux,
    show considerEntry key (0 + l1.length) e none =
      some (0 + l1.length, e) from by rw [considerEntry, if_pos he],
    findAux_no_match key l2 (0 + l1.length + 1) (some (0 + l1.length, e)) h2,
    Nat.zero_add]

theorem readS_after_unique (s : Store) (key v : List Nat) (bufLen : Nat)
    (L : List Entry) (idx : Nat)
    (hs : s.entries = L ++ [(⟨idx, 0xFFFE, key, v⟩ : Entry)])
    (hL : ∀ a ∈ L, ¬(a.key = key ∧ entryIsActive a))
    (hbuf : v.length ≤ bufLen) :
    readS s key bufLen = .ok v := by
  have hu := findCurrentPos_unique key L [] (⟨idx, 0xFFFE, key, v⟩ : Entry)
    hL ⟨rfl, entryIsActive_fresh idx key v⟩ (by simp)
  simp only [readS, findCurrent, hs, hu, Option.map_some']
  rw [if_neg (Nat.not_lt.mpr hbuf)]

theorem appendAndExpire_spec (s : Store) (key v : List Nat)
    (huniq : uniqueActive key s.entries) :
    ∃ L, (appendAndExpire s key v).entries =
        L ++ [(⟨nextEntryIndex s.entries, 0xFFFE, key, v⟩ : Entry)] ∧
      ∀ a ∈ L, ¬(a.key = key ∧ entryIsActive a) := by
  cases hfp : findCurrentPos key s.entries with
  | none =>
    refine ⟨s.entries, ?_, findCurrentPos_none key s.entries hfp⟩
    simp only [appendAndExpire, hfp]
  | some pe =>
    obtain ⟨hpe, hkey, hact⟩ :=
      findCurrentPos_spec key s.entries pe.1 pe.2 (by rw [hfp])
    obtain ⟨hlt, hgot⟩ := List.getElem?_eq_some.mp hpe
    refine ⟨s.entries.set pe.1 (clearValid pe.2), ?_, ?_⟩
    · simp only [appendAndExpire, hfp]
      rw [List.set_append_left pe.1 (clearValid pe.2) hlt]
    · intro a ha hma
      rcases List.getElem_of_mem ha with ⟨i, hi, hai⟩
      rw [List.getElem_set] at hai
      by_cases hpi : pe.1 = i
      · rw [if_pos hpi] at hai
        have hfalse := hma.2
        rw [← hai, entryIsActive_clearValid] at hfalse
        exact Bool.false_ne_true hfalse
      · rw [if_neg hpi] at hai
        have hilen : i < s.entries.length := by
          simpa using hi
        have hia : s.entries[i]? = some a := by
          rw [List.getElem?_eq_getElem hilen, hai]
        exact hpi ((huniq i pe.1 a pe.2 hia hpe hma.1 hma.2 hkey hact).symm)

theorem pairs_fst_nodup (es : List Entry) :
    ((((es.map Entry.key).dedup).filterMap
      (fun k => (findCurrent k es).map (fun e => (k, e.value)))).map
        Prod.fst).Nodup := by
  rw [List.map_filterMap]
  refine List.Nodup.filterMap ?_ (List.nodup_dedup _)
  intro a a2 b hb hb2
  rcases Option.mem_map.mp hb with ⟨p, hp, hpb⟩
  rcases Option.mem_map.mp hp with ⟨e1, he1, hep⟩
  rcases Option.mem_map.mp hb2 with ⟨p2, hp2, hpb2⟩
  rcases Option.mem_map.mp hp2 with ⟨e2, he2, hep2⟩
  rw [← hep] at hpb
  rw [← hep2] at hpb2
  simp only at hpb hpb2
  rw [hpb2, ← hpb]

theorem compact_keys_nodup (es : List Entry) :
    ((compact es).map Entry.key).Nodup := by
  have h := pairs_fst_nodup es
  rw [compact, List.map_map]
  rw [show (Entry.key ∘ fun x : Nat × (List Nat × List Nat) =>
      (⟨x.1 % 2 ^ 16, 0xFFFE, x.2.1, x.2.2⟩ : Entry)) =
      ((fun p : List Nat × List Nat => p.1) ∘ Prod.snd) from rfl,
    ← List.map_map, List.enum_map_snd]
  exact h

theorem uniqueActive_compact (key : List Nat) (es : List Entry) :
    uniqueActive key (compact es) := by
  intro i j a b hia hjb hak haa hbk hba
  obtain ⟨hi, hgi⟩ := List.getElem?_eq_some.mp hia
  refine @List.getElem?_inj _ i j ((compact es).map Entry.key) ?_
    (compact_keys_nodup es) ?_
  · simpa using hi
  · rw [List.getElem?_map, List.getElem?_map, hia, hjb]
    simp [hak, hbk]

/-- C8: on a store whose active page satisfies the spec's invariant that at
most one entry for the key is Active, if write(k, v) succeeds then a
subsequent read(k) with a sufficiently large buffer returns exactly v —
through the no-mutation, plain-append and rollover paths of write alike. -/
theorem C8_write_read_roundtrip (pageSize : Nat) (s s2 : Store)
    (key v : List Nat) (bufLen : Nat)
    (huniq : uniqueActive key s.entries)
    (hw : writeS pageSize s key v = .ok s2)
    (hbuf : v.length ≤ bufLen) :
    readS s2 key bufLen = .ok v := by
  cases hfc : findCurrent key s.entries with
  | some e =>
    simp only [writeS, hfc] at hw
    by_cases hv : e.value = v
    · rw [if_pos hv] at hw
      cases hw
      simp only [readS, hfc]
      rw [hv, if_neg (Nat.not_lt.mpr hbuf)]
    · rw [if_neg hv] at hw
      by_cases h1 : pageUsed s + (8 + key.length + v.length) ≤ pageSize
      · rw [if_pos h1] at hw
        cases hw
        obtain ⟨L, hL1, hL2⟩ := appendAndExpire_spec s key v huniq
        exact readS_after_unique _ key v bufLen L _ hL1 hL2 hbuf
      · rw [if_neg h1] at hw
        by_cases h2 : pageUsed (rollover s) + (8 + key.length + v.length) ≤
            pageSize
        · rw [if_pos h2] at hw
          cases hw
          obtain ⟨L, hL1, hL2⟩ := appendAndExpire_spec (rollover s) key v
            (uniqueActive_compact key s.entries)
          exact readS_after_unique _ key v bufLen L _ hL1 hL2 hbuf
        · rw [if_neg h2] at hw
          cases hw
  | none =>
    simp only [writeS, hfc] at hw
    by_cases h1 : pageUsed s + (8 + key.length + v.length) ≤ pageSize
    · rw [if_pos h1] at hw
      cases hw
      obtain ⟨L, hL1, hL2⟩ := appendAndExpire_spec s key v huniq
      exact readS_after_unique _ key v bufLen L _ hL1 hL2 hbuf
    · rw [if_neg h1] at hw
      by_cases h2 : pageUsed (rollover s) + (8 + key.length + v.length) ≤
          pageSize
      · rw [if_pos h2] at hw
        cases hw
        obtain ⟨L, hL1, hL2⟩ := appendAndExpire_spec (rollover s) key v
          (uniqueActive_compact key s.entries)
        exact readS_after_unique _ key v bufLen L _ hL1 hL2 hbuf
      · rw [if_neg h2] at hw
        cases hw

/-- Closed instance of C8: writing key [1] with value [2, 3] into an empty
store, then reading it back. -/
theorem C8_write_read_roundtrip_witness :
    readS ⟨[(⟨0, 0xFFFE, [1], [2, 3]⟩ : Entry)], 0⟩ [1] 8 = .ok [2, 3] :=
  C8_write_read_roundtrip 2048 ⟨[], 0⟩
    ⟨[(⟨0, 0xFFFE, [1], [2, 3]⟩ : Entry)], 0⟩ [1] [2, 3] 8
    (fun i j a b hia => by simp at hia) (by decide) (by decide)

/-- C9: if the current Active entry for the key already holds a value
byte-for-byte equal to v, write(k, v) returns success and the store — the
entry stream on flash, the page index, and hence the derived write cursor
(page_offset) — is returned unchanged. -/
theorem C9_idempotent_write (pageSize : Nat) (s : Store) (key v : List Nat)
    (e : Entry) (hfc : findCurrent key s.entries = some e)
    (hv : e.value = v) :
    writeS pageSize s key v = .ok s := by
  simp only [writeS, hfc]
  rw [if_pos hv]

/-- Closed instance of C9: rewriting the value [7] already stored for key
[1] leaves the store untouched. -/
theorem C9_idempotent_write_witness :
    writeS 2048 ⟨[(⟨0, 0xFFFE, [1], [7]⟩ : Entry)], 0⟩ [1] [7] =
      .ok ⟨[(⟨0, 0xFFFE, [1], [7]⟩ : Entry)], 0⟩ :=
  C9_idempotent_write 2048 ⟨[(⟨0, 0xFFFE, [1], [7]⟩ : Entry)], 0⟩ [1] [7]
    (⟨0, 0xFFFE, [1], [7]⟩ : Entry) (by decide) rfl

end Fkvs
